import Mathlib

/-!
# Verification of the ArchiveBox "plugantic" config / binary-provider subsystem

Shallow embedding of:
* `archivebox/plugantic/ini_to_toml.py` (`load_ini_value`, `convert`)
* `archivebox/plugantic/base_configset.py` (`FlatTomlConfigSettingsSource`,
  `ArchiveBoxBaseConfig.settings_customise_sources`, `ArchiveBoxBaseConfig.fill_defaults`)
* `archivebox/plugins_pkg/puppeteer/apps.py` and `archivebox/plugins_pkg/playwright/apps.py`
  (`PuppeteerBinProvider` / `PlaywrightBinProvider` `on_get_abspath` / `on_install`)

Python dictionaries are modelled as insertion-ordered association lists
(`List (String × α)`), with `alistSet` modelling `d[k] = v` (update in place if the key
exists, append otherwise) and `alistLookup` modelling `d[k]` reads.
Python stdlib parsers that the repository merely calls (`ast.literal_eval`, `json.loads`)
are uninterpreted parameters of type `String → Option JSONValue`, matching the
`JSONValue = str | bool | int | None | List['JSONValue']` annotation in `ini_to_toml.py`.
-/

/-- Insertion-ordered dictionary write, as in Python `d[k] = v`:
update the existing binding in place, else append at the end. -/
def alistSet {α : Type} (l : List (String × α)) (k : String) (v : α) : List (String × α) :=
  match l with
  | [] => [(k, v)]
  | (k', v') :: rest => if k' = k then (k, v) :: rest else (k', v') :: alistSet rest k v

/-- Dictionary read, as in Python `d[k]` / `d.get(k)`: first binding for `k`, if any. -/
def alistLookup {α : Type} (l : List (String × α)) (k : String) : Option α :=
  match l with
  | [] => none
  | (k', v) :: rest => if k' = k then some v else alistLookup rest k

/-! ## `ini_to_toml.load_ini_value` (the spec's `ValueCoercion.coerce`)

`JSONValue = str | bool | int | None | List['JSONValue']` is the value type annotated on
`load_ini_value` in `ini_to_toml.py` (dicts/floats etc. are outside the claims' scope). -/

inductive JSONValue : Type where
  | jStr : String → JSONValue
  | jBool : Bool → JSONValue
  | jInt : Int → JSONValue
  | jNull : JSONValue
  | jList : List JSONValue → JSONValue

mutual

/-- `True` iff the value contains no `None` anywhere (TOML has no null, so
`json.dumps` output for such values is re-parseable as a TOML value). -/
def nullFree : JSONValue → Bool
  | .jStr _ => true
  | .jBool _ => true
  | .jInt _ => true
  | .jNull => false
  | .jList vs => nullFreeList vs

def nullFreeList : List JSONValue → Bool
  | [] => true
  | v :: vs => nullFree v && nullFreeList vs

end

/-- Python `str.lower()` (ASCII model, the alphabet of config values). -/
def pyLower (s : String) : String := ⟨s.data.map Char.toLower⟩

/-- Python `str.upper()` (ASCII model). -/
def pyUpper (s : String) : String := ⟨s.data.map Char.toUpper⟩

/-- Python `str.strip()`: drop whitespace from both ends. -/
def pyStrip (s : String) : String :=
  ⟨((s.data.dropWhile Char.isWhitespace).reverse.dropWhile Char.isWhitespace).reverse⟩

/-- Python `needle in hay` on strings: substring containment. -/
def strContains (hay needle : String) : Bool := decide (needle.data <:+: hay.data)

/-- Python `int(val)` for a string of ASCII digits. -/
def digitsToNat (l : List Char) : Nat := l.foldl (fun n c => 10 * n + (c.toNat - 48)) 0

/-- Python `val.lower() in ('true', 'yes', '1')`. -/
def isTrueLiteral (val : String) : Bool :=
  pyLower val = "true" || pyLower val = "yes" || pyLower val = "1"

/-- Python `val.lower() in ('false', 'no', '0')`. -/
def isFalseLiteral (val : String) : Bool :=
  pyLower val = "false" || pyLower val = "no" || pyLower val = "0"

/-- Python `str.isdigit()` (ASCII model): non-empty and every character a digit. -/
def pyIsDigit (s : String) : Bool :=
  !s.isEmpty && s.data.all Char.isDigit

/-- `ini_to_toml.load_ini_value`: convert lax INI values into strict TOML-compliant (JSON)
values.  `litEval` models `ast.literal_eval` and `jsonLoads` models `json.loads`;
both are Python-stdlib black boxes, so they are parameters (`none` = the call raised). -/
def load_ini_value (litEval jsonLoads : String → Option JSONValue) (val : String) : JSONValue :=
  if isTrueLiteral val then .jBool true
  else if isFalseLiteral val then .jBool false
  else if pyIsDigit val then .jInt (digitsToNat val.data : Nat)
  else
    match litEval val with
    | some v => v
    | none =>
      match jsonLoads val with
      | some v => v
      | none => .jStr val

/-! ## `ini_to_toml.convert`, modelled at the dictionary level

`convert` does (for `config.optionxform = str`, i.e. key case preserved by the INI parser):

    toml_dict = {}
    for section in config.sections():
        toml_dict[section] = {}
        for key, value in config.items(section):
            parsed_value = load_ini_value(value)
            toml_dict[section.upper()][key.upper()] = json.dumps(parsed_value)

The INI input is modelled post-`configparser`: a list of sections, each a name together
with its ordered `key = value` string pairs (`configparser` rejects duplicate sections and
duplicate keys).  `toml_dict[section.upper()]` is a *read* of a possibly-missing key, hence
the `Except Unit` (the `.error` case is Python's `KeyError`).  Values are kept as
`JSONValue` rather than `json.dumps` strings: on `None`-free values, TOML-parsing the
`json.dumps` output gives back exactly the same value (both stdlib), so the stored
`JSONValue` is the value the re-parsed structured file yields. -/

/-- The inner loop of `convert`: insert one section's items under `uname = section.upper()`. -/
def convertItems (litEval jsonLoads : String → Option JSONValue)
    (uname : String) : List (String × String) → List (String × List (String × JSONValue)) →
    Except Unit (List (String × List (String × JSONValue)))
  | [], acc => .ok acc
  | (key, value) :: rest, acc =>
    match alistLookup acc uname with
    | none => .error ()     -- KeyError: toml_dict[section.upper()] does not exist
    | some sect =>
        convertItems litEval jsonLoads uname rest
          (alistSet acc uname
            (alistSet sect (pyUpper key) (load_ini_value litEval jsonLoads value)))

/-- The outer loop of `convert` over the sections of the INI input. -/
def convertDict (litEval jsonLoads : String → Option JSONValue) :
    List (String × List (String × String)) → List (String × List (String × JSONValue)) →
    Except Unit (List (String × List (String × JSONValue)))
  | [], acc => .ok acc
  | (name, items) :: rest, acc =>
    match convertItems litEval jsonLoads (pyUpper name) items (alistSet acc name []) with
    | .error e => .error e
    | .ok acc' => convertDict litEval jsonLoads rest acc'

/-- Parsing the legacy file directly with `ValueCoercion` (`configparser` with
`optionxform = str`, so sections and keys keep their case, plus `load_ini_value`
on every value). -/
def directDict (litEval jsonLoads : String → Option JSONValue)
    (sections : List (String × List (String × String))) :
    List (String × List (String × JSONValue)) :=
  sections.map (fun s => (s.1, s.2.map (fun kv => (kv.1, load_ini_value litEval jsonLoads kv.2))))

/-- Success predicate for `convertDict`: a section with at least one key is convertible
iff its uppercased name is its own name or the name of an already-processed section
(those are exactly the keys `toml_dict` holds when the section's first item is inserted). -/
def sectionsConvertible (seen : List String) :
    List (String × List (String × String)) → Bool
  | [] => true
  | (name, items) :: rest =>
      (items.isEmpty || (name :: seen).contains (pyUpper name))
        && sectionsConvertible (name :: seen) rest

/-- `Except.isOk`, for stating when `convert` raises. -/
def exceptOk {ε α : Type} : Except ε α → Bool
  | .ok _ => true
  | .error _ => false

/-! ## `FlatTomlConfigSettingsSource` (base_configset.py)

Loads the parsed TOML document (`nested_toml_data`), flattens recognized section tables
into a single namespace (`toml_data[key] = value` per inner key), keeps other top-level
entries as-is, then filters to keys declared in `settings_cls.model_fields`. -/

/-- A parsed TOML value as the flattening code observes it: either a table
(`isinstance(section, dict)`) or anything else (opaque to this code). -/
inductive TVal (V : Type) : Type where
  | prim : V → TVal V
  | table : List (String × TVal V) → TVal V

/-- The `ConfigSectionName` literal from `base_configset.py`. -/
def ConfigSectionNames : List String :=
  ["SHELL_CONFIG", "GENERAL_CONFIG", "STORAGE_CONFIG", "SERVER_CONFIG",
   "ARCHIVING_CONFIG", "LDAP_CONFIG", "ARCHIVE_METHOD_TOGGLES", "ARCHIVE_METHOD_OPTIONS",
   "SEARCH_BACKEND_CONFIG", "DEPENDENCY_CONFIG"]

/-- The flattening loop of `FlatTomlConfigSettingsSource.__init__`. -/
def flattenTomlData {V : Type} (sectionNames : List String)
    (nested : List (String × TVal V)) : List (String × TVal V) :=
  nested.foldl
    (fun acc kv =>
      match kv with
      | (name, .table items) =>
          if sectionNames.contains name then
            items.foldl (fun a i => alistSet a i.1 i.2) acc
          else alistSet acc name (.table items)
      | (name, v) => alistSet acc name v)
    []

/-- The final `toml_data` of `FlatTomlConfigSettingsSource`: flattened data filtered to
the keys declared on the settings class. -/
def flatTomlSourceData {V : Type} (sectionNames modelFields : List String)
    (nested : List (String × TVal V)) : List (String × TVal V) :=
  (flattenTomlData sectionNames nested).filter (fun kv => modelFields.contains kv.1)

/-! ## `ArchiveBoxBaseConfig.settings_customise_sources` (base_configset.py)

The method:
* returns `(init_settings, env_settings)` when `ArchiveBox.conf` does not exist;
* otherwise tries to build `FlatTomlConfigSettingsSource` on the file and returns
  `(init_settings, configfile, env_settings)`;
* on `TOMLDecodeError` it writes the original bytes to `.ArchiveBox.conf.bak`, writes
  `ini_to_toml.convert(original)` back to `ArchiveBox.conf`, and builds the TOML source
  on the rewritten file (any exception there, or any non-`TOMLDecodeError` exception from
  the first attempt, propagates);
* finally drops the sources disabled by the `load_from_*` class flags (in dict order).

pydantic-settings merges the returned sources with `deep_update(*reversed(sources))`
(`BaseSettings._settings_build_values`), i.e. the *first* source of the returned tuple has
the *highest* priority. -/

inductive SourceKind : Type where
  | defaults : SourceKind      -- `init_settings` (constructor kwargs)
  | configfile : SourceKind    -- `FlatTomlConfigSettingsSource` on ArchiveBox.conf
  | environment : SourceKind   -- `env_settings`
deriving DecidableEq

/-- Result of attempting to TOML-parse a file's content (`tomlDecodeError` is the one
exception class `settings_customise_sources` catches). -/
inductive TomlParseResult : Type where
  | ok : TomlParseResult
  | tomlDecodeError : TomlParseResult
  | otherError : TomlParseResult
deriving DecidableEq

/-- The two files `settings_customise_sources` touches: `DATA_DIR/ArchiveBox.conf` and
`DATA_DIR/.ArchiveBox.conf.bak` (`none` = file absent). -/
structure ConfFS : Type where
  conf : Option String
  bak : Option String
deriving DecidableEq

/-- `load_from_defaults` / `load_from_configfile` / `load_from_environment` flags. -/
def applyLoadFlags (loadDefaults loadConfigfile loadEnvironment : Bool)
    (order : List SourceKind) : List SourceKind :=
  order.filter (fun k =>
    match k with
    | .defaults => loadDefaults
    | .configfile => loadConfigfile
    | .environment => loadEnvironment)

/-- `settings_customise_sources`: returns the final filesystem state and either the
source tuple (in returned order: first = highest pydantic-settings priority) or an
uncaught exception (`.error`). -/
def settings_customise_sources (parse : String → TomlParseResult) (conv : String → String)
    (loadDefaults loadConfigfile loadEnvironment : Bool) (fs : ConfFS) :
    ConfFS × Except Unit (List SourceKind) :=
  match fs.conf with
  | none =>
      (fs, .ok (applyLoadFlags loadDefaults loadConfigfile loadEnvironment
        [.defaults, .environment]))
  | some content =>
      match parse content with
      | .ok =>
          (fs, .ok (applyLoadFlags loadDefaults loadConfigfile loadEnvironment
            [.defaults, .configfile, .environment]))
      | .otherError => (fs, .error ())    -- non-TOMLDecodeError exceptions are re-raised
      | .tomlDecodeError =>
          -- backup the original INI bytes, rewrite ArchiveBox.conf as TOML
          let fs' : ConfFS := ⟨some (conv content), some content⟩
          match parse (conv content) with
          | .ok =>
              (fs', .ok (applyLoadFlags loadDefaults loadConfigfile loadEnvironment
                [.defaults, .configfile, .environment]))
          | _ => (fs', .error ())  -- second source construction raises uncaught

/-! ## Layer merging and `fill_defaults`

A pydantic field default is a constant, a zero-argument callable, or a callable that
receives the partially-resolved config as a dict (`func_takes_args_or_kwargs`
distinguishes the two callable shapes in `fill_defaults`). -/

inductive FieldDefault (V : Type) : Type where
  | constant : V → FieldDefault V
  | computedPure : (Unit → Option V) → FieldDefault V
  | computedFromCfg : ((String → Option V) → Option V) → FieldDefault V

/-- One declared config field: name, the environment-variable names pydantic will match
(the field name, or the declared `alias` / `AliasChoices` in declared order), and the
schema default. -/
structure FieldSpec (V : Type) : Type where
  name : String
  envNames : List String
  default : FieldDefault V

/-- A field's value in a given source (`none` = source does not provide it):
`init_settings` and the TOML file match by field name; the environment matches the
declared env alias names in order. -/
def sourceLookup {V : Type} (initData fileData envData : List (String × V))
    (k : SourceKind) (f : FieldSpec V) : Option V :=
  match k with
  | .defaults => alistLookup initData f.name
  | .configfile => alistLookup fileData f.name
  | .environment => f.envNames.findSome? (fun n => alistLookup envData n)

/-- pydantic-settings `deep_update(*reversed(sources))`: the first source of the returned
tuple that provides the field wins. -/
def mergedValue {V : Type} (order : List SourceKind)
    (initData fileData envData : List (String × V)) (f : FieldSpec V) : Option V :=
  order.findSome? (fun k => sourceLookup initData fileData envData k f)

/-- A field's state after layer-merging, before `fill_defaults`: either a concrete value,
or the still-callable default left in place (pydantic applies the schema default only
when no source provides the field; with `validate_default=False`, a callable default is
stored as-is and `fill_defaults` later executes it). -/
inductive Cell (V : Type) : Type where
  | val : V → Cell V
  | pending : FieldDefault V → Cell V

def initialCell {V : Type} (order : List SourceKind)
    (initData fileData envData : List (String × V)) (f : FieldSpec V) : Cell V :=
  match mergedValue order initData fileData envData f with
  | some v => .val v
  | none =>
      match f.default with
      | .constant c => .val c
      | d => .pending d

/-- `self.model_dump(...)` as `fill_defaults` sees it: resolved fields map to their
values; a still-pending callable is not a usable config value (reading it would fail the
subsequent `TypeAdapter` validation), modelled as `none`. -/
def snapshotOf {V : Type} (cells : List (String × Cell V)) : String → Option V :=
  fun k =>
    match alistLookup cells k with
    | some (.val v) => some v
    | _ => none

/-- Execute a callable default. `none` means the call (or the `TypeAdapter` validation of
its return value) raised. -/
def evalDefault {V : Type} (d : FieldDefault V) (snap : String → Option V) : Option V :=
  match d with
  | .constant c => some c
  | .computedPure f => f ()
  | .computedFromCfg f => f snap

/-- The `fill_defaults` model-validator loop: iterate the fields in declaration order;
for each field whose current value is a callable, call it (passing the current
`model_dump` snapshot if it takes arguments) and `setattr` the computed value. -/
def fill_defaults {V : Type} :
    List String → List (String × Cell V) → Except Unit (List (String × Cell V))
  | [], cells => .ok cells
  | name :: rest, cells =>
      match alistLookup cells name with
      | some (.pending d) =>
          match evalDefault d (snapshotOf cells) with
          | some v => fill_defaults rest (alistSet cells name (.val v))
          | none => .error ()   -- default factory raised / returned an invalid value
      | _ => fill_defaults rest cells

/-- End-to-end resolution of one config set: build each field's merged cell from the
sources in the order `settings_customise_sources` returned, run `fill_defaults`, and
read the final values. -/
def resolveConfig {V : Type} (schema : List (FieldSpec V)) (order : List SourceKind)
    (initData fileData envData : List (String × V)) : Except Unit (String → Option V) :=
  (fill_defaults (schema.map (fun f => f.name))
      (schema.map (fun f => (f.name, initialCell order initData fileData envData f)))).map
    snapshotOf

/-- The schema of C1's scenario: one field `TIMEOUT : int` with constant default `60`
(environment matched by the field name). -/
def timeoutField : FieldSpec Int := ⟨"TIMEOUT", ["TIMEOUT"], .constant 60⟩

/-- The schema of C3's example: `TIMEOUT : int` default `60` declared before
`MEDIA_TIMEOUT : int` default `lambda cfg: cfg.TIMEOUT` (as in the spec's
ARCHIVING_CONFIG scenario; the mechanism is `fill_defaults` in base_configset.py). -/
def mediaTimeoutSchema : List (FieldSpec Int) :=
  [⟨"TIMEOUT", ["TIMEOUT"], .constant 60⟩,
   ⟨"MEDIA_TIMEOUT", ["MEDIA_TIMEOUT"], .computedFromCfg (fun cfg => cfg "TIMEOUT")⟩]

/-- The process environment of C3's two scenarios: empty, or `TIMEOUT=<n>`. -/
def envOf : Option Int → List (String × Int)
  | none => []
  | some n => [("TIMEOUT", n)]

/-! ## Binary providers (puppeteer/apps.py, playwright/apps.py)

`installed_browser_bins` is `sorted(self.puppeteer_browsers_dir.glob(...))`: the list of
glob matches is a filesystem parameter; Python `sorted` on strings is code-point
lexicographic comparison, modelled by `strLe`. -/

/-- Code-point lexicographic `≤` on character lists (Python string comparison). -/
def charListLe : List Char → List Char → Bool
  | [], _ => true
  | _ :: _, [] => false
  | a :: as, b :: bs => if a < b then true else if b < a then false else charListLe as bs

/-- Python `a <= b` on strings. -/
def strLe (a b : String) : Bool := charListLe a.data b.data

/-- `installed_browser_bins`: `sorted(...)` over the glob matches found on disk. -/
def installed_browser_bins (globMatches : List String) : List String :=
  List.insertionSort (fun a b => strLe a b = true) globMatches

/-- Everything after the last newline of the stripped text:
Python `s.strip().split('\n')[-1]`. -/
def pyLastLine (s : String) : String :=
  ⟨((pyStrip s).data.reverse.takeWhile (fun c => ¬ c = '\n')).reverse⟩

/-- Python `s.split(' ', 1)[-1]`: everything after the first space (the whole string when
there is no space). -/
def afterFirstSpace (s : String) : String :=
  if s.data.any (fun c => c = ' ') then ⟨(s.data.dropWhile (fun c => ¬ c = ' ')).tail⟩
  else s

/-- A finished installer subprocess as `self.exec(...)` reports it. -/
structure ProcResult : Type where
  returncode : Int
  stdout : String
  stderr : String

/-- The failure modes of the provider methods: the `assert` in `setup()`, the
`assert bin_name == 'chrome'` contract check, the "installer not found in $PATH"
exception, and the non-zero-returncode install exception. -/
inductive ProviderErr : Type where
  | setupAssertionFailed : ProviderErr
  | unsupportedBinName : ProviderErr
  | installerNotAvailable : ProviderErr
  | installFailed : Int → ProviderErr
deriving DecidableEq

/-- `PuppeteerBinProvider.on_get_abspath`: assert the name is `chrome`; serve from the
`_browser_abspaths` class cache if present; otherwise scan `installed_browser_bins()`,
filter to paths containing the binary name, take the last (`matching_bins[-1]`) of the
sorted list, cache and return it; `None` when nothing matches. -/
def puppeteer_on_get_abspath (globMatches : List String)
    (cache : List (String × String)) (binName : String) :
    Except ProviderErr (Option String) × List (String × String) :=
  if binName ≠ "chrome" then (.error .unsupportedBinName, cache)
  else
    match alistLookup cache binName with
    | some p => (.ok (some p), cache)
    | none =>
        match ((installed_browser_bins globMatches).filter
            (fun p => strContains p binName)).getLast? with
        | some newest => (.ok (some newest), alistSet cache binName newest)
        | none => (.ok none, cache)

/-- `PlaywrightBinProvider.on_get_abspath`: as for puppeteer, but when the filesystem
scan finds nothing it additionally checks `bin_abspath('google-chrome-stable', env.PATH)`
(a host-dependent parameter here) before giving up. -/
def playwright_on_get_abspath (globMatches : List String) (sysChromePath : Option String)
    (cache : List (String × String)) (binName : String) :
    Except ProviderErr (Option String) × List (String × String) :=
  if binName ≠ "chrome" then (.error .unsupportedBinName, cache)
  else
    match alistLookup cache binName with
    | some p => (.ok (some p), cache)
    | none =>
        match ((installed_browser_bins globMatches).filter
            (fun p => strContains p binName)).getLast? with
        | some newest => (.ok (some newest), alistSet cache binName newest)
        | none =>
            match sysChromePath with
            | some p => (.ok (some p), alistSet cache binName p)
            | none => (.ok none, cache)

/-- Python `packages or self.on_get_packages(bin_name)`: a `None` or empty `packages`
argument falls back to the `packages_handler` entry. -/
def resolvePackages (packages : Option (List String)) (handlerPkgs : List String) :
    List String :=
  match packages with
  | none => handlerPkgs
  | some ps => if ps.isEmpty then handlerPkgs else ps

/-- `PuppeteerBinProvider.packages_handler["chrome"]()`. -/
def puppeteerChromePackages : List String := ["chrome@stable"]

/-- `PlaywrightBinProvider.packages_handler["chrome"]()`. -/
def playwrightChromePackages : List String := ["chromium"]

/-- `PuppeteerBinProvider.puppeteer_install_args ++ packages`:
`npx @puppeteer/browsers install --path <LIB_BROWSERS_DIR> <packages...>`. -/
def puppeteer_install_cmd (browsersDir : String) (pkgs : List String) : List String :=
  ["@puppeteer/browsers", "install", "--path", browsersDir] ++ pkgs

/-- `PlaywrightBinProvider.puppeteer_install_args ++ packages`: `playwright install <packages...>`. -/
def playwright_install_cmd (pkgs : List String) : List String :=
  ["install"] ++ pkgs

/-- The outcome of one `on_install` call: what was printed, the returned stdout/stderr
text or the raised error, and the `_browser_abspaths` cache afterwards. -/
structure InstallResult : Type where
  printed : List String
  outcome : Except ProviderErr String
  cache : List (String × String)

/-- `PuppeteerBinProvider.on_install`: `setup()` (assertion on the npm provider),
`assert bin_name == 'chrome'`, fail if `npx` is not resolvable, run the installer via
`self.exec`; on non-zero returncode print stripped stdout then stderr and raise; on
success parse `stdout.strip().split('\n')[-1].split(' ', 1)[-1]` as the browser path,
cache it, and return the combined output. -/
def puppeteer_on_install (setupOk : Bool) (installerAbspath : Option String)
    (cache : List (String × String)) (exec : List String → ProcResult)
    (browsersDir : String) (binName : String) (packages : Option (List String)) :
    InstallResult :=
  if !setupOk then ⟨[], .error .setupAssertionFailed, cache⟩
  else if binName ≠ "chrome" then ⟨[], .error .unsupportedBinName, cache⟩
  else
    match installerAbspath with
    | none => ⟨[], .error .installerNotAvailable, cache⟩
    | some _ =>
        let proc := exec (puppeteer_install_cmd browsersDir
          (resolvePackages packages puppeteerChromePackages))
        if proc.returncode ≠ 0 then
          ⟨[pyStrip proc.stdout, pyStrip proc.stderr],
            .error (.installFailed proc.returncode), cache⟩
        else
          ⟨[], .ok (pyStrip proc.stderr ++ "\n" ++ pyStrip proc.stdout),
            alistSet cache binName (afterFirstSpace (pyLastLine proc.stdout))⟩

/-- `PlaywrightBinProvider.on_install`: identical control flow with the playwright
installer command and packages. -/
def playwright_on_install (setupOk : Bool) (installerAbspath : Option String)
    (cache : List (String × String)) (exec : List String → ProcResult)
    (binName : String) (packages : Option (List String)) :
    InstallResult :=
  if !setupOk then ⟨[], .error .setupAssertionFailed, cache⟩
  else if binName ≠ "chrome" then ⟨[], .error .unsupportedBinName, cache⟩
  else
    match installerAbspath with
    | none => ⟨[], .error .installerNotAvailable, cache⟩
    | some _ =>
        let proc := exec (playwright_install_cmd
          (resolvePackages packages playwrightChromePackages))
        if proc.returncode ≠ 0 then
          ⟨[pyStrip proc.stdout, pyStrip proc.stderr],
            .error (.installFailed proc.returncode), cache⟩
        else
          ⟨[], .ok (pyStrip proc.stderr ++ "\n" ++ pyStrip proc.stdout),
            alistSet cache binName (afterFirstSpace (pyLastLine proc.stdout))⟩

/-! ## Lemmas and claim theorems -/

theorem alistLookup_set_self {α : Type} (l : List (String × α)) (k : String) (v : α) :
    alistLookup (alistSet l k v) k = some v := by
  induction l with
  | nil => simp [alistSet, alistLookup]
  | cons hd tl ih =>
      obtain ⟨k', v'⟩ := hd
      by_cases h : k' = k
      · simp [alistSet, alistLookup, h]
      · simp [alistSet, alistLookup, h, ih]

theorem alistSet_set_self {α : Type} (l : List (String × α)) (k : String) (v w : α) :
    alistSet (alistSet l k v) k w = alistSet l k w := by
  induction l with
  | nil => simp [alistSet]
  | cons hd tl ih =>
      obtain ⟨k', v'⟩ := hd
      by_cases h : k' = k
      · simp [alistSet, h]
      · simp [alistSet, h, ih]

/-- Writing a key that is absent appends the binding at the end. -/
theorem alistSet_of_not_mem {α : Type} (l : List (String × α)) (k : String) (v : α)
    (h : alistLookup l k = none) : alistSet l k v = l ++ [(k, v)] := by
  induction l with
  | nil => simp [alistSet]
  | cons hd tl ih =>
      obtain ⟨k', v'⟩ := hd
      by_cases hk : k' = k
      · simp [alistLookup, hk] at h
      · simp [alistLookup, hk] at h
        simp [alistSet, hk, ih h]

theorem alistLookup_append_right {α : Type} (l₁ l₂ : List (String × α)) (k : String)
    (h : alistLookup l₁ k = none) :
    alistLookup (l₁ ++ l₂) k = alistLookup l₂ k := by
  induction l₁ with
  | nil => simp
  | cons hd tl ih =>
      obtain ⟨k', v'⟩ := hd
      by_cases hk : k' = k
      · simp [alistLookup, hk] at h
      · simp [alistLookup, hk] at h ⊢
        exact ih h

theorem alistLookup_filter {α : Type} (p : String → Bool) (l : List (String × α)) (k : String) :
    alistLookup (l.filter (fun kv => p kv.1)) k =
      if p k then alistLookup l k else none := by
  induction l with
  | nil => simp [alistLookup]
  | cons hd tl ih =>
      obtain ⟨k', v'⟩ := hd
      by_cases hk : k' = k
      · subst hk
        by_cases hp : p k'
        · simp [List.filter_cons, hp, alistLookup]
        · simp [List.filter_cons, hp, alistLookup, ih]
      · by_cases hp : p k'
        · simp [List.filter_cons, hp, alistLookup, hk, ih]
        · simp [List.filter_cons, hp, alistLookup, hk, ih]

theorem alistLookup_set {α : Type} (l : List (String × α)) (k x : String) (v : α) :
    alistLookup (alistSet l k v) x = if x = k then some v else alistLookup l x := by
  induction l with
  | nil =>
      by_cases hx : x = k
      · simp [alistSet, alistLookup, hx]
      · simp [alistSet, alistLookup, hx, Ne.symm hx]
  | cons hd tl ih =>
      obtain ⟨k', v'⟩ := hd
      by_cases hk : k' = k
      · subst hk
        by_cases hx : x = k'
        · simp [alistSet, alistLookup, hx]
        · simp [alistSet, alistLookup, hx, Ne.symm hx]
      · by_cases hx : x = k'
        · subst hx
          have hk' : ¬ x = k := fun h => hk h
          simp [alistSet, alistLookup, hk, hk']
        · simp [alistSet, alistLookup, hk, Ne.symm hx, ih]

/-- Re-writing the value a key already holds leaves the dictionary unchanged. -/
theorem alistSet_lookup_eq {α : Type} (l : List (String × α)) (k : String) (v : α)
    (h : alistLookup l k = some v) : alistSet l k v = l := by
  induction l with
  | nil => simp [alistLookup] at h
  | cons hd tl ih =>
      obtain ⟨k', v'⟩ := hd
      by_cases hk : k' = k
      · subst hk
        simp [alistLookup] at h
        simp [alistSet, h]
      · simp [alistLookup, hk] at h
        simp [alistSet, hk, ih h]

theorem alistSet_append_last {α : Type} (l : List (String × α)) (k : String) (a v : α)
    (h : alistLookup l k = none) : alistSet (l ++ [(k, a)]) k v = l ++ [(k, v)] := by
  induction l with
  | nil => simp [alistSet]
  | cons hd tl ih =>
      obtain ⟨k', v'⟩ := hd
      by_cases hk : k' = k
      · simp [alistLookup, hk] at h
      · simp [alistLookup, hk] at h
        simp [alistSet, hk, ih h]

/-- **C5.** `load_ini_value` tries, in this exact order: case-insensitive boolean literal
(`true`/`yes`/`1` ↦ true, `false`/`no`/`0` ↦ false), then integer literal (`str.isdigit`
followed by `int()`), then the generic literal-structure parse (`ast.literal_eval`),
then the JSON parse (`json.loads`); the first parse that succeeds determines the result,
and if all fail the original string is returned unchanged. -/
theorem claim_C5_coercion_order (litEval jsonLoads : String → Option JSONValue)
    (val : String) :
    (isTrueLiteral val = true →
      load_ini_value litEval jsonLoads val = .jBool true)
  ∧ (isTrueLiteral val = false → isFalseLiteral val = true →
      load_ini_value litEval jsonLoads val = .jBool false)
  ∧ (isTrueLiteral val = false → isFalseLiteral val = false → pyIsDigit val = true →
      load_ini_value litEval jsonLoads val = .jInt (digitsToNat val.data))
  ∧ (∀ v, isTrueLiteral val = false → isFalseLiteral val = false → pyIsDigit val = false →
      litEval val = some v →
      load_ini_value litEval jsonLoads val = v)
  ∧ (∀ v, isTrueLiteral val = false → isFalseLiteral val = false → pyIsDigit val = false →
      litEval val = none → jsonLoads val = some v →
      load_ini_value litEval jsonLoads val = v)
  ∧ (isTrueLiteral val = false → isFalseLiteral val = false → pyIsDigit val = false →
      litEval val = none → jsonLoads val = none →
      load_ini_value litEval jsonLoads val = .jStr val) := by
  refine ⟨?_, ?_, ?_, ?_, ?_, ?_⟩ <;> intros <;> simp_all [load_ini_value]

/-- Witness for C5: each stage of the cascade exercised on a concrete input
(`Yes`/`NO` check case-insensitivity, `007` the digit stage, a literal-parse hit,
a JSON-parse hit after a literal-parse miss, and the fall-through to the raw string). -/
theorem claim_C5_coercion_order_witness :
    load_ini_value (fun _ => none) (fun _ => none) "Yes" = .jBool true
  ∧ load_ini_value (fun _ => none) (fun _ => none) "NO" = .jBool false
  ∧ load_ini_value (fun _ => none) (fun _ => none) "007" = .jInt 7
  ∧ load_ini_value (fun _ => some (.jList [.jInt 2])) (fun _ => none) "[2,]" = .jList [.jInt 2]
  ∧ load_ini_value (fun _ => none) (fun _ => some (.jList [])) "[]" = .jList []
  ∧ load_ini_value (fun _ => none) (fun _ => none) "hello world" = .jStr "hello world" := by
  refine ⟨(claim_C5_coercion_order _ _ "Yes").1 (by decide),
    (claim_C5_coercion_order _ _ "NO").2.1 (by decide) (by decide),
    ((claim_C5_coercion_order _ _ "007").2.2.1 (by decide) (by decide) (by decide)).trans
      (by rfl),
    (claim_C5_coercion_order _ _ "[2,]").2.2.2.1 (.jList [.jInt 2]) (by decide) (by decide)
      (by decide) rfl,
    (claim_C5_coercion_order _ _ "[]").2.2.2.2.1 (.jList []) (by decide) (by decide)
      (by decide) rfl rfl,
    (claim_C5_coercion_order _ _ "hello world").2.2.2.2.2 (by decide) (by decide)
      (by decide) rfl rfl⟩

/-- Characterization of the inner loop: with the target `uname` dict present, the items
are folded into it with uppercased keys and coerced values. -/
theorem convertItems_ok (litEval jsonLoads : String → Option JSONValue) (uname : String) :
    ∀ (items : List (String × String)) (acc : List (String × List (String × JSONValue)))
      (sect : List (String × JSONValue)),
      alistLookup acc uname = some sect →
      convertItems litEval jsonLoads uname items acc =
        .ok (alistSet acc uname
          (items.foldl
            (fun s kv => alistSet s (pyUpper kv.1) (load_ini_value litEval jsonLoads kv.2))
            sect)) := by
  intro items
  induction items with
  | nil =>
      intro acc sect h
      simp [convertItems, alistSet_lookup_eq acc uname sect h]
  | cons kv rest ih =>
      intro acc sect h
      obtain ⟨key, value⟩ := kv
      have step := ih (alistSet acc uname
          (alistSet sect (pyUpper key) (load_ini_value litEval jsonLoads value)))
        (alistSet sect (pyUpper key) (load_ini_value litEval jsonLoads value))
        (alistLookup_set_self acc uname _)
      simp [convertItems, h, step, alistSet_set_self]

/-- The inner loop succeeds iff the section had no items or `toml_dict` already holds a
key equal to the uppercased section name. -/
theorem convertItems_isOk (litEval jsonLoads : String → Option JSONValue) (uname : String)
    (items : List (String × String)) (acc : List (String × List (String × JSONValue))) :
    exceptOk (convertItems litEval jsonLoads uname items acc) =
      (items.isEmpty || (alistLookup acc uname).isSome) := by
  cases items with
  | nil => simp [convertItems, exceptOk]
  | cons kv rest =>
      obtain ⟨key, value⟩ := kv
      cases h : alistLookup acc uname with
      | none => simp [convertItems, h, exceptOk]
      | some sect =>
          rw [convertItems_ok litEval jsonLoads uname (⟨key, value⟩ :: rest) acc sect h]
          simp [exceptOk, h]

/-- `convert` succeeds on the remaining sections iff `sectionsConvertible` says so, where
`seen` lists exactly the keys `toml_dict` (the accumulator) currently holds. -/
theorem convertDict_isOk_aux (litEval jsonLoads : String → Option JSONValue) :
    ∀ (sections : List (String × List (String × String)))
      (acc : List (String × List (String × JSONValue))) (seen : List String),
      (∀ x, seen.contains x = (alistLookup acc x).isSome) →
      exceptOk (convertDict litEval jsonLoads sections acc) =
        sectionsConvertible seen sections := by
  intro sections
  induction sections with
  | nil => intro acc seen _; simp [convertDict, exceptOk, sectionsConvertible]
  | cons s rest ih =>
      intro acc seen hinv
      obtain ⟨name, items⟩ := s
      have hacc1 : ∀ x, (name :: seen).contains x =
          (alistLookup (alistSet acc name []) x).isSome := by
        intro x
        rw [alistLookup_set]
        by_cases hx : x = name
        · simp [hx, List.contains_cons]
        · rw [if_neg hx, List.contains_cons, hinv x]
          simp [hx]
      cases hlook : alistLookup (alistSet acc name []) (pyUpper name) with
      | none =>
          have hc := hacc1 (pyUpper name)
          rw [hlook] at hc
          simp only [Option.isSome_none] at hc
          cases items with
          | nil =>
              simp only [convertDict, convertItems]
              rw [ih (alistSet acc name []) (name :: seen) hacc1]
              simp [sectionsConvertible]
          | cons kv rest' =>
              obtain ⟨key, value⟩ := kv
              have hc' : ¬(pyUpper name = name ∨ pyUpper name ∈ seen) := by
                simpa using hc
              simp only [convertDict, convertItems, hlook]
              simp [sectionsConvertible, exceptOk, hc']
      | some sect =>
          have hc := hacc1 (pyUpper name)
          rw [hlook] at hc
          simp only [Option.isSome_some] at hc
          rw [show convertDict litEval jsonLoads ((name, items) :: rest) acc =
              (match convertItems litEval jsonLoads (pyUpper name) items
                  (alistSet acc name []) with
                | .error e => .error e
                | .ok acc' => convertDict litEval jsonLoads rest acc') from rfl]
          rw [convertItems_ok litEval jsonLoads (pyUpper name) items _ sect hlook]
          have hinv2 : ∀ x, (name :: seen).contains x =
              (alistLookup (alistSet (alistSet acc name [])
                (pyUpper name)
                (items.foldl (fun s kv =>
                  alistSet s (pyUpper kv.1) (load_ini_value litEval jsonLoads kv.2)) sect))
                x).isSome := by
            intro x
            rw [alistLookup_set]
            by_cases hx : x = pyUpper name
            · rw [if_pos hx, hx]
              simpa using hc
            · rw [if_neg hx]
              exact hacc1 x
          have hc' : pyUpper name = name ∨ pyUpper name ∈ seen := by
            simpa using hc
          rw [ih _ (name :: seen) hinv2]
          simp [sectionsConvertible, hc']

/-- Folding fresh, pairwise-distinct (after uppercasing) keys into a dictionary appends
them in order. -/
theorem foldl_alistSet_fresh (litEval jsonLoads : String → Option JSONValue) :
    ∀ (items : List (String × String)) (s : List (String × JSONValue)),
      (∀ kv ∈ items, alistLookup s (pyUpper kv.1) = none) →
      ((items.map (fun kv => pyUpper kv.1)).Nodup) →
      items.foldl
          (fun s kv => alistSet s (pyUpper kv.1) (load_ini_value litEval jsonLoads kv.2)) s
        = s ++ items.map (fun kv => (pyUpper kv.1, load_ini_value litEval jsonLoads kv.2)) := by
  intro items
  induction items with
  | nil => intro s _ _; simp
  | cons kv rest ih =>
      intro s hfresh hnodup
      obtain ⟨key, value⟩ := kv
      have hhead : alistLookup s (pyUpper key) = none := hfresh (key, value) (by simp)
      have hup : pyUpper key ∉ rest.map (fun kv => pyUpper kv.1) := by
        simp only [List.map_cons, List.nodup_cons] at hnodup
        exact hnodup.1
      have hstep : alistSet s (pyUpper key) (load_ini_value litEval jsonLoads value) =
          s ++ [(pyUpper key, load_ini_value litEval jsonLoads value)] :=
        alistSet_of_not_mem s _ _ hhead
      have hfresh' : ∀ kv' ∈ rest,
          alistLookup (s ++ [(pyUpper key, load_ini_value litEval jsonLoads value)])
            (pyUpper kv'.1) = none := by
        intro kv' hkv'
        rw [alistLookup_append_right _ _ _ (hfresh kv' (List.mem_cons_of_mem _ hkv'))]
        have hne : ¬ pyUpper key = pyUpper kv'.1 := by
          intro h
          exact hup (by rw [h]; exact List.mem_map_of_mem _ hkv')
        simp [alistLookup, hne]
      have hnodup' : (rest.map (fun kv => pyUpper kv.1)).Nodup := by
        simp only [List.map_cons, List.nodup_cons] at hnodup
        exact hnodup.2
      simp only [List.foldl_cons, hstep]
      rw [ih _ hfresh' hnodup']
      simp

/-- On sections whose names are already uppercase (pairwise distinct, keys distinct after
uppercasing), `convert` succeeds and produces exactly the coerced mapping with every key
uppercased. -/
theorem convertDict_upper (litEval jsonLoads : String → Option JSONValue) :
    ∀ (sections : List (String × List (String × String)))
      (acc : List (String × List (String × JSONValue))),
      (∀ s ∈ sections, pyUpper s.1 = s.1) →
      (∀ s ∈ sections, alistLookup acc s.1 = none) →
      ((sections.map Prod.fst).Nodup) →
      (∀ s ∈ sections, (s.2.map (fun kv => pyUpper kv.1)).Nodup) →
      convertDict litEval jsonLoads sections acc =
        .ok (acc ++ sections.map (fun s =>
          (s.1, s.2.map
            (fun kv => (pyUpper kv.1, load_ini_value litEval jsonLoads kv.2))))) := by
  intro sections
  induction sections with
  | nil => intro acc _ _ _ _; simp [convertDict]
  | cons s rest ih =>
      intro acc hupper hfresh hnodup hkeys
      obtain ⟨name, items⟩ := s
      have hname : pyUpper name = name := hupper (name, items) (by simp)
      have haccname : alistLookup acc name = none := hfresh (name, items) (by simp)
      have hacc1 : alistSet acc name ([] : List (String × JSONValue)) = acc ++ [(name, [])] :=
        alistSet_of_not_mem acc name [] haccname
      have hlook1 : alistLookup (acc ++ [(name, [])]) name = some [] := by
        rw [alistLookup_append_right _ _ _ haccname]
        simp [alistLookup]
      have hfold := foldl_alistSet_fresh litEval jsonLoads items []
        (by intro kv _; simp [alistLookup]) (hkeys (name, items) (by simp))
      have hitems := convertItems_ok litEval jsonLoads name items (acc ++ [(name, [])]) [] hlook1
      have hnotinrest : name ∉ rest.map Prod.fst := by
        simp only [List.map_cons, List.nodup_cons] at hnodup
        exact hnodup.1
      have hacc2 : alistSet (acc ++ [(name, [])]) name
          (items.map (fun kv => (pyUpper kv.1, load_ini_value litEval jsonLoads kv.2))) =
          acc ++ [(name, items.map
            (fun kv => (pyUpper kv.1, load_ini_value litEval jsonLoads kv.2)))] :=
        alistSet_append_last acc name _ _ haccname
      have hfresh' : ∀ s' ∈ rest,
          alistLookup (acc ++ [(name, items.map
            (fun kv => (pyUpper kv.1, load_ini_value litEval jsonLoads kv.2)))]) s'.1 = none := by
        intro s' hs'
        rw [alistLookup_append_right _ _ _ (hfresh s' (List.mem_cons_of_mem _ hs'))]
        have hne : ¬ name = s'.1 := by
          intro h
          exact hnotinrest (by rw [h]; exact List.mem_map_of_mem _ hs')
        simp [alistLookup, hne]
      have hnodup' : (rest.map Prod.fst).Nodup := by
        simp only [List.map_cons, List.nodup_cons] at hnodup
        exact hnodup.2
      have hstep := hitems
      rw [hfold, List.nil_append, hacc2] at hstep
      have hrec := ih (acc ++ [(name, items.map
            (fun kv => (pyUpper kv.1, load_ini_value litEval jsonLoads kv.2)))])
        (fun s hs => hupper s (List.mem_cons_of_mem _ hs)) hfresh' hnodup'
        (fun s hs => hkeys s (List.mem_cons_of_mem _ hs))
      simp only [convertDict, hname, hacc1, hstep, hrec]
      simp

/-- **C2 (counterexample).** The claim says migrating a legacy file and re-parsing the
structured output preserves keys.  It does not: `convert` writes every key as
`key.upper()`, so for the legacy input `[GENERAL] save_media=False` the migrated mapping
holds the value under `SAVE_MEDIA` and has *no* entry under `save_media`, whereas direct
coercion (via `configparser` with `optionxform = str`, which preserves key case) maps
`save_media` itself to `false`. -/
theorem claim_C2_counterexample :
    ((convertDict (fun _ => none) (fun _ => none)
        [("GENERAL", [("save_media", "False")])] []).map
      (fun d => (alistLookup d "GENERAL").map (fun sect => alistLookup sect "save_media")))
      = .ok (some none)
  ∧ ((alistLookup (directDict (fun _ => none) (fun _ => none)
        [("GENERAL", [("save_media", "False")])]) "GENERAL").map
      (fun sect => alistLookup sect "save_media")) = some (some (.jBool false)) :=
  ⟨rfl, rfl⟩

/-- **C2 (amended).** For every legacy INI input whose section names are already fully
uppercase and pairwise distinct, whose keys are distinct within each section after
uppercasing, and whose values coerce to `None`-free (boolean / integer / string /
list-shaped) values, migrating with `convert` and re-parsing the structured output yields
exactly the key→value mapping obtained by coercing each legacy value directly with
`load_ini_value` — with every key renamed to its uppercased form (values and sections
preserved; keys preserved only up to `key.upper()`). -/
theorem claim_C2_roundtrip_amended (litEval jsonLoads : String → Option JSONValue)
    (sections : List (String × List (String × String)))
    (hnull : ∀ s ∈ sections, ∀ kv ∈ s.2,
      nullFree (load_ini_value litEval jsonLoads kv.2) = true)
    (hupper : ∀ s ∈ sections, pyUpper s.1 = s.1)
    (hsec : (sections.map Prod.fst).Nodup)
    (hkeys : ∀ s ∈ sections, (s.2.map (fun kv => pyUpper kv.1)).Nodup) :
    convertDict litEval jsonLoads sections [] =
      .ok ((directDict litEval jsonLoads sections).map
        (fun s => (s.1, s.2.map (fun kv => (pyUpper kv.1, kv.2))))) := by
  rw [convertDict_upper litEval jsonLoads sections [] hupper
    (by intro s _; simp [alistLookup]) hsec hkeys]
  simp [directDict, List.map_map, Function.comp_def]

/-- Witness for C2 (amended) at the spec's own example `[GENERAL] SAVE_MEDIA=False`
(plus a second digit-valued key): migration and direct coercion agree exactly. -/
theorem claim_C2_roundtrip_amended_witness :
    convertDict (fun _ => none) (fun _ => none)
      [("GENERAL", [("SAVE_MEDIA", "False"), ("TIMEOUT", "60")])] [] =
      .ok ((directDict (fun _ => none) (fun _ => none)
        [("GENERAL", [("SAVE_MEDIA", "False"), ("TIMEOUT", "60")])]).map
        (fun s => (s.1, s.2.map (fun kv => (pyUpper kv.1, kv.2))))) :=
  claim_C2_roundtrip_amended (fun _ => none) (fun _ => none)
    [("GENERAL", [("SAVE_MEDIA", "False"), ("TIMEOUT", "60")])]
    (by
      intro s hs kv hkv
      simp only [List.mem_singleton] at hs
      subst hs
      simp only [List.mem_cons, List.mem_singleton] at hkv
      rcases hkv with h | h | h
      · subst h; rfl
      · subst h; rfl
      · cases h)
    (by decide) (by decide) (by decide)

/-- **C10 (counterexample).** The claim says every legacy input containing a section whose
name has a lowercase letter and at least one key makes `convert` raise `KeyError`.
Not quite: if an *earlier* section's name equals the uppercased name, the write lands in
that section's table instead.  Concretely, for sections `[GENERAL]` then `[general]`
(`configparser` treats them as distinct), conversion succeeds. -/
theorem claim_C10_counterexample :
    exceptOk (convertDict (fun _ => none) (fun _ => none)
      [("GENERAL", [("A", "1")]), ("general", [("B", "2")])] []) = true := rfl

/-- **C10 (amended).** `convert` succeeds exactly when every section with at least one
key has its uppercased name equal to its own name or to the name of an earlier section
(the keys `toml_dict` holds when that section's first item is written); in particular,
when no section name equals another section's uppercasing, a section containing a
lowercase letter and at least one key always raises `KeyError`, and conversion succeeds
only when every section with a key is already fully uppercase. -/
theorem claim_C10_keyerror_amended (litEval jsonLoads : String → Option JSONValue)
    (sections : List (String × List (String × String))) :
    exceptOk (convertDict litEval jsonLoads sections []) =
      sectionsConvertible [] sections :=
  convertDict_isOk_aux litEval jsonLoads sections [] []
    (by intro x; simp [alistLookup])

/-- **C9.** Every key of the persisted config file that is not declared as a field of the
config set being resolved is filtered out of the loaded data (and the loader is a total
function of the parsed document — no error is raised for such keys); keys inside
recognized section tables are flattened into a single namespace *before* this filtering,
so a declared key keeps exactly the value the flattened namespace gives it. -/
theorem claim_C9_unknown_keys_ignored {V : Type} (modelFields : List String)
    (nested : List (String × TVal V)) (k : String) :
    (modelFields.contains k = false →
      alistLookup (flatTomlSourceData ConfigSectionNames modelFields nested) k = none)
  ∧ (modelFields.contains k = true →
      alistLookup (flatTomlSourceData ConfigSectionNames modelFields nested) k =
        alistLookup (flattenTomlData ConfigSectionNames nested) k) := by
  have hfilter := alistLookup_filter (fun x => modelFields.contains x)
    (flattenTomlData ConfigSectionNames nested) k
  constructor <;> intro h <;>
    · simp only [flatTomlSourceData]
      rw [hfilter, h]
      simp

/-- Witness for C9: a document with a recognized section table holding one declared key
(`TIMEOUT`) and one undeclared key (`BOGUS_KEY`), plus an undeclared flat top-level key.
The undeclared keys are dropped, the declared flattened key survives with its value. -/
theorem claim_C9_unknown_keys_ignored_witness :
    alistLookup (flatTomlSourceData ConfigSectionNames ["TIMEOUT"]
      [("GENERAL_CONFIG", .table [("TIMEOUT", .prim (60 : Int)), ("BOGUS_KEY", .prim 1)]),
       ("WEIRD_TOP", .prim 2)]) "BOGUS_KEY" = none
  ∧ alistLookup (flatTomlSourceData ConfigSectionNames ["TIMEOUT"]
      [("GENERAL_CONFIG", .table [("TIMEOUT", .prim (60 : Int)), ("BOGUS_KEY", .prim 1)]),
       ("WEIRD_TOP", .prim 2)]) "TIMEOUT" = some (.prim 60) :=
  ⟨(claim_C9_unknown_keys_ignored ["TIMEOUT"] _ "BOGUS_KEY").1 rfl,
   ((claim_C9_unknown_keys_ignored ["TIMEOUT"] _ "TIMEOUT").2 rfl).trans rfl⟩

/-- **C4.** For every config file already in the structured (TOML) format, loading the
config (again) is a no-op on disk: the file and the backup are unchanged; and whenever
loading changes the filesystem at all (the INI→TOML migration: backup write plus rewrite
of the original path), the file existed and failed to parse as TOML with a
`TOMLDecodeError`. -/
theorem claim_C4_migration_idempotent (parse : String → TomlParseResult)
    (conv : String → String) (loadD loadC loadE : Bool) (fs : ConfFS) :
    (∀ c, fs.conf = some c → parse c = .ok →
      (settings_customise_sources parse conv loadD loadC loadE fs).1 = fs)
  ∧ ((settings_customise_sources parse conv loadD loadC loadE fs).1 ≠ fs →
      ∃ c, fs.conf = some c ∧ parse c = .tomlDecodeError) := by
  constructor
  · intro c hc hok
    simp [settings_customise_sources, hc, hok]
  · intro hne
    cases hfs : fs.conf with
    | none =>
        exfalso
        exact hne (by simp [settings_customise_sources, hfs])
    | some c =>
        cases hp : parse c with
        | ok =>
            exfalso
            exact hne (by simp [settings_customise_sources, hfs, hp])
        | otherError =>
            exfalso
            exact hne (by simp [settings_customise_sources, hfs, hp])
        | tomlDecodeError => exact ⟨c, rfl, hp⟩

/-- Witness for C4: a present config file whose content parses as TOML — the filesystem
(file and backup) is returned untouched. -/
theorem claim_C4_migration_idempotent_witness :
    (settings_customise_sources (fun _ => .ok) (fun s => s) true true true
      ⟨some "[GENERAL_CONFIG]", none⟩).1 = ⟨some "[GENERAL_CONFIG]", none⟩ :=
  (claim_C4_migration_idempotent (fun _ => .ok) (fun s => s) true true true
    ⟨some "[GENERAL_CONFIG]", none⟩).1 "[GENERAL_CONFIG]" rfl rfl

/-- **C1 (code evaluated at the failing input).** With all three layers present for
`TIMEOUT` (schema default 60, `ArchiveBox.conf` value 30, environment value 10), the
resolved config contains the *file* value 30, not the environment value 10:
`settings_customise_sources` returns `(init_settings, configfile, env_settings)` and
pydantic-settings gives the first returned source the highest priority
(`deep_update(*reversed(sources))`), so the TOML file beats the environment — contrary
to the claim, to the method's own docstring ("Schema defaults -> ArchiveBox.conf (TOML)
-> Environment variables"), and to `update_in_place`, which writes overrides into
`os.environ` and reloads expecting them to win. -/
theorem claim_C1_file_beats_environment :
    (settings_customise_sources (fun _ => .ok) (fun s => s) true true true
        ⟨some "TIMEOUT = 30", none⟩).2 =
      .ok [.defaults, .configfile, .environment]
  ∧ (resolveConfig [timeoutField] [.defaults, .configfile, .environment]
        [] [("TIMEOUT", (30 : Int))] [("TIMEOUT", 10)]).map (fun m => m "TIMEOUT")
      = .ok (some 30)
  ∧ (resolveConfig [timeoutField] [.defaults, .configfile, .environment]
        [] [("TIMEOUT", (30 : Int))] [("TIMEOUT", 10)]).map (fun m => m "TIMEOUT")
      ≠ .ok (some 10) := by
  refine ⟨rfl, rfl, ?_⟩
  intro h
  rw [show (resolveConfig [timeoutField] [.defaults, .configfile, .environment]
      [] [("TIMEOUT", (30 : Int))] [("TIMEOUT", 10)]).map (fun m => m "TIMEOUT")
      = .ok (some 30) from rfl] at h
  simp at h

/-- **C3.** A default function that reads another field's value is evaluated by
`fill_defaults` against the already-merged layers: with no config file and any
environment override `TIMEOUT=t` (or none), `MEDIA_TIMEOUT` resolves to exactly the
resolved `TIMEOUT` — 60 with no overrides, t when the environment supplies `TIMEOUT=t`
(in particular 10 for `TIMEOUT=10`). -/
theorem claim_C3_computed_default_sees_resolved (t : Option Int) :
    (resolveConfig mediaTimeoutSchema [.defaults, .environment]
        [] [] (envOf t)).map (fun m => m "MEDIA_TIMEOUT") = .ok (some (t.getD 60))
  ∧ (resolveConfig mediaTimeoutSchema [.defaults, .environment]
        [] [] (envOf t)).map (fun m => m "TIMEOUT") = .ok (some (t.getD 60)) := by
  cases t with
  | none => exact ⟨rfl, rfl⟩
  | some n =>
      constructor <;>
        simp [resolveConfig, mediaTimeoutSchema, envOf, fill_defaults, initialCell, Except.map,
          mergedValue, sourceLookup, alistLookup, alistSet, snapshotOf, evalDefault]

theorem charListLe_refl : ∀ l : List Char, charListLe l l = true := by
  intro l
  induction l with
  | nil => rfl
  | cons a as ih => simp [charListLe, lt_irrefl, ih]

theorem charListLe_total : ∀ a b : List Char, charListLe a b = true ∨ charListLe b a = true := by
  intro a
  induction a with
  | nil => intro b; left; rfl
  | cons x xs ih =>
      intro b
      cases b with
      | nil => right; rfl
      | cons y ys =>
          rcases lt_trichotomy x y with h | h | h
          · left; simp [charListLe, h]
          · subst h
            rcases ih ys with h' | h'
            · left; simp [charListLe, lt_irrefl, h']
            · right; simp [charListLe, lt_irrefl, h']
          · right; simp [charListLe, h]

theorem charListLe_trans : ∀ a b c : List Char,
    charListLe a b = true → charListLe b c = true → charListLe a c = true := by
  intro a
  induction a with
  | nil => intro b c _ _; rfl
  | cons x xs ih =>
      intro b c hab hbc
      cases b with
      | nil => simp [charListLe] at hab
      | cons y ys =>
          cases c with
          | nil => simp [charListLe] at hbc
          | cons z zs =>
              rcases lt_trichotomy x y with hxy | hxy | hxy
              · rcases lt_trichotomy y z with hyz | hyz | hyz
                · simp [charListLe, lt_trans hxy hyz]
                · subst hyz; simp [charListLe, hxy]
                · simp [charListLe, hyz, asymm hyz] at hbc
              · subst hxy
                rcases lt_trichotomy x z with hyz | hyz | hyz
                · simp [charListLe, hyz]
                · subst hyz
                  simp [charListLe, lt_irrefl] at hab hbc ⊢
                  exact ih _ _ hab hbc
                · simp [charListLe, hyz, asymm hyz] at hbc
              · simp [charListLe, hxy, asymm hxy] at hab

instance : IsTotal String (fun a b => strLe a b = true) :=
  ⟨fun a b => charListLe_total a.data b.data⟩

instance : IsTrans String (fun a b => strLe a b = true) :=
  ⟨fun _ _ _ hab hbc => charListLe_trans _ _ _ hab hbc⟩

/-- In a `Pairwise`-sorted list every element is `≤` the last one. -/
theorem pairwise_getLast_max :
    ∀ (l : List String), l.Pairwise (fun a b => strLe a b = true) →
      ∀ (hne : l ≠ []) (x : String), x ∈ l → strLe x (l.getLast hne) = true := by
  intro l
  induction l with
  | nil => intro _ hne; exact absurd rfl hne
  | cons a t ih =>
      intro hp hne x hx
      cases t with
      | nil =>
          simp only [List.mem_singleton] at hx
          subst hx
          exact charListLe_refl _
      | cons b bs =>
          rw [List.getLast_cons (by simp)]
          rcases List.mem_cons.mp hx with hxa | hxt
          · subst hxa
            exact (List.pairwise_cons.mp hp).1 _ (List.getLast_mem (by simp))
          · exact ih (List.pairwise_cons.mp hp).2 (by simp) x hxt

/-- **C6.** Whenever the installer subprocess exits non-zero, `on_install` (puppeteer and
playwright alike) prints the captured stdout and stderr (stripped, in that order) and
raises the install error carrying the returncode; it returns no value, records nothing in
the cache, and performs no further attempt within the call. -/
theorem claim_C6_install_error_surfaced (browsersDir installer : String)
    (cache : List (String × String)) (execP execW : List String → ProcResult)
    (packages : Option (List String))
    (hp : (execP (puppeteer_install_cmd browsersDir
      (resolvePackages packages puppeteerChromePackages))).returncode ≠ 0)
    (hw : (execW (playwright_install_cmd
      (resolvePackages packages playwrightChromePackages))).returncode ≠ 0) :
    puppeteer_on_install true (some installer) cache execP browsersDir "chrome" packages =
      ⟨[pyStrip (execP (puppeteer_install_cmd browsersDir
          (resolvePackages packages puppeteerChromePackages))).stdout,
        pyStrip (execP (puppeteer_install_cmd browsersDir
          (resolvePackages packages puppeteerChromePackages))).stderr],
       .error (.installFailed (execP (puppeteer_install_cmd browsersDir
          (resolvePackages packages puppeteerChromePackages))).returncode),
       cache⟩
  ∧ playwright_on_install true (some installer) cache execW "chrome" packages =
      ⟨[pyStrip (execW (playwright_install_cmd
          (resolvePackages packages playwrightChromePackages))).stdout,
        pyStrip (execW (playwright_install_cmd
          (resolvePackages packages playwrightChromePackages))).stderr],
       .error (.installFailed (execW (playwright_install_cmd
          (resolvePackages packages playwrightChromePackages))).returncode),
       cache⟩ := by
  constructor <;> simp [puppeteer_on_install, playwright_on_install, hp, hw]

/-- Witness for C6: installers exiting 2 and 3; both providers print the stripped
captured output and fail with the matching `installFailed`, leaving the cache empty. -/
theorem claim_C6_install_error_surfaced_witness :
    puppeteer_on_install true (some "/usr/bin/npx") []
        (fun _ => ⟨2, " npm out ", " npm err "⟩) "/data/lib/browsers" "chrome" none =
      ⟨["npm out", "npm err"], .error (.installFailed 2), []⟩
  ∧ playwright_on_install true (some "/usr/bin/playwright") []
        (fun _ => ⟨3, "pw out", "pw err"⟩) "chrome" none =
      ⟨["pw out", "pw err"], .error (.installFailed 3), []⟩ := by
  have h := claim_C6_install_error_surfaced "/data/lib/browsers" "/usr/bin/npx" []
    (fun _ => ⟨2, " npm out ", " npm err "⟩) (fun _ => ⟨3, "pw out", "pw err"⟩) none
    (by decide) (by decide)
  exact ⟨h.1.trans rfl, h.2.trans rfl⟩

/-- **C7.** For every binary name other than `chrome`, both providers' lookup
(`on_get_abspath`) and install (`on_install`) operations fail fast with the
assertion-style contract error: they do not return `None`, do not touch the cache,
print nothing, and perform no work. -/
theorem claim_C7_non_chrome_asserts (globMatches : List String)
    (sysChromePath : Option String) (cache : List (String × String))
    (exec : List String → ProcResult) (browsersDir : String)
    (installerAbspath : Option String) (packages : Option (List String))
    (binName : String) (h : binName ≠ "chrome") :
    puppeteer_on_get_abspath globMatches cache binName =
      (.error .unsupportedBinName, cache)
  ∧ playwright_on_get_abspath globMatches sysChromePath cache binName =
      (.error .unsupportedBinName, cache)
  ∧ puppeteer_on_install true installerAbspath cache exec browsersDir binName packages =
      ⟨[], .error .unsupportedBinName, cache⟩
  ∧ playwright_on_install true installerAbspath cache exec binName packages =
      ⟨[], .error .unsupportedBinName, cache⟩ := by
  refine ⟨?_, ?_, ?_, ?_⟩ <;>
    simp [puppeteer_on_get_abspath, playwright_on_get_abspath,
      puppeteer_on_install, playwright_on_install, h]

/-- Witness for C7 at `bin_name = "wget"`. -/
theorem claim_C7_non_chrome_asserts_witness :
    puppeteer_on_get_abspath [] [] "wget" = (.error .unsupportedBinName, [])
  ∧ playwright_on_get_abspath [] none [] "wget" = (.error .unsupportedBinName, [])
  ∧ puppeteer_on_install true none [] (fun _ => ⟨0, "", ""⟩) "/data/lib/browsers" "wget"
      none = ⟨[], .error .unsupportedBinName, []⟩
  ∧ playwright_on_install true none [] (fun _ => ⟨0, "", ""⟩) "wget" none =
      ⟨[], .error .unsupportedBinName, []⟩ :=
  claim_C7_non_chrome_asserts [] none [] (fun _ => ⟨0, "", ""⟩) "/data/lib/browsers"
    none none "wget" (by decide)

/-- The filesystem scan selects the lexically-last matching path: the last element of the
sorted-then-filtered list exists, matches, and is `≥` every match. -/
theorem scan_newest_spec (globMatches : List String) (binName : String)
    (hne : globMatches.filter (fun q => strContains q binName) ≠ []) :
    ∃ m, ((installed_browser_bins globMatches).filter
        (fun q => strContains q binName)).getLast? = some m
      ∧ m ∈ globMatches.filter (fun q => strContains q binName)
      ∧ ∀ x ∈ globMatches.filter (fun q => strContains q binName), strLe x m = true := by
  have hperm : List.Perm
      ((installed_browser_bins globMatches).filter (fun q => strContains q binName))
      (globMatches.filter (fun q => strContains q binName)) :=
    (List.perm_insertionSort _ globMatches).filter _
  have hsorted : List.Pairwise (fun a b => strLe a b = true)
      ((installed_browser_bins globMatches).filter (fun q => strContains q binName)) :=
    (List.sorted_insertionSort _ globMatches).filter _
  have hne' : (installed_browser_bins globMatches).filter
      (fun q => strContains q binName) ≠ [] := by
    intro h
    rw [h] at hperm
    exact hne (hperm.symm.eq_nil)
  refine ⟨((installed_browser_bins globMatches).filter
      (fun q => strContains q binName)).getLast hne',
    List.getLast?_eq_getLast _ hne', ?_, ?_⟩
  · exact hperm.mem_iff.mp (List.getLast_mem hne')
  · intro x hx
    exact pairwise_getLast_max _ hsorted hne' x (hperm.mem_iff.mpr hx)

/-- **C8.** With an empty per-binary cache and at least one glob match containing the
binary name, both providers resolve `chrome` to the lexically-last matching path of the
sorted scan, store it in the `_browser_abspaths` cache, and every subsequent lookup
returns the cached path unchanged regardless of what a re-scan of the filesystem (or the
`$PATH` fallback) would now find. -/
theorem claim_C8_lexically_last_and_cached (globMatchesP globMatchesW : List String)
    (cache : List (String × String)) (sysChromePath : Option String)
    (hcache : alistLookup cache "chrome" = none)
    (hmatchP : globMatchesP.filter (fun q => strContains q "chrome") ≠ [])
    (hmatchW : globMatchesW.filter (fun q => strContains q "chrome") ≠ []) :
    (∃ m, puppeteer_on_get_abspath globMatchesP cache "chrome" =
        (.ok (some m), alistSet cache "chrome" m)
      ∧ m ∈ globMatchesP.filter (fun q => strContains q "chrome")
      ∧ (∀ x ∈ globMatchesP.filter (fun q => strContains q "chrome"), strLe x m = true)
      ∧ (∀ bins', puppeteer_on_get_abspath bins' (alistSet cache "chrome" m) "chrome" =
          (.ok (some m), alistSet cache "chrome" m)))
  ∧ (∃ m, playwright_on_get_abspath globMatchesW sysChromePath cache "chrome" =
        (.ok (some m), alistSet cache "chrome" m)
      ∧ m ∈ globMatchesW.filter (fun q => strContains q "chrome")
      ∧ (∀ x ∈ globMatchesW.filter (fun q => strContains q "chrome"), strLe x m = true)
      ∧ (∀ bins' sys',
          playwright_on_get_abspath bins' sys' (alistSet cache "chrome" m) "chrome" =
          (.ok (some m), alistSet cache "chrome" m))) := by
  constructor
  · obtain ⟨m, hlast, hmem, hmax⟩ := scan_newest_spec globMatchesP "chrome" hmatchP
    refine ⟨m, ?_, hmem, hmax, ?_⟩
    · simp [puppeteer_on_get_abspath, hcache, hlast]
    · intro bins'
      simp [puppeteer_on_get_abspath, alistLookup_set_self]
  · obtain ⟨m, hlast, hmem, hmax⟩ := scan_newest_spec globMatchesW "chrome" hmatchW
    refine ⟨m, ?_, hmem, hmax, ?_⟩
    · simp [playwright_on_get_abspath, hcache, hlast]
    · intro bins' sys'
      simp [playwright_on_get_abspath, alistLookup_set_self]

/-- Witness for C8 on two installed versions, 131.0 and 99.0: the scan picks the
lexically-last path (the 99.0 one — `"9" > "1"` code-point-wise, the documented
heuristic's known quirk) and caches it. -/
theorem claim_C8_lexically_last_and_cached_witness :
    (∃ m, puppeteer_on_get_abspath
        ["/data/lib/browsers/chrome/linux-131.0/chrome-linux/chrome",
         "/data/lib/browsers/chrome/linux-99.0/chrome-linux/chrome"] [] "chrome" =
        (.ok (some m), alistSet [] "chrome" m)
      ∧ m ∈ ["/data/lib/browsers/chrome/linux-131.0/chrome-linux/chrome",
             "/data/lib/browsers/chrome/linux-99.0/chrome-linux/chrome"].filter
          (fun q => strContains q "chrome")
      ∧ (∀ x ∈ ["/data/lib/browsers/chrome/linux-131.0/chrome-linux/chrome",
                "/data/lib/browsers/chrome/linux-99.0/chrome-linux/chrome"].filter
          (fun q => strContains q "chrome"), strLe x m = true)
      ∧ (∀ bins', puppeteer_on_get_abspath bins' (alistSet [] "chrome" m) "chrome" =
          (.ok (some m), alistSet [] "chrome" m)))
  ∧ (∃ m, playwright_on_get_abspath
        ["/data/lib/browsers/chrome/linux-131.0/chrome-linux/chrome",
         "/data/lib/browsers/chrome/linux-99.0/chrome-linux/chrome"] none [] "chrome" =
        (.ok (some m), alistSet [] "chrome" m)
      ∧ m ∈ ["/data/lib/browsers/chrome/linux-131.0/chrome-linux/chrome",
             "/data/lib/browsers/chrome/linux-99.0/chrome-linux/chrome"].filter
          (fun q => strContains q "chrome")
      ∧ (∀ x ∈ ["/data/lib/browsers/chrome/linux-131.0/chrome-linux/chrome",
                "/data/lib/browsers/chrome/linux-99.0/chrome-linux/chrome"].filter
          (fun q => strContains q "chrome"), strLe x m = true)
      ∧ (∀ bins' sys',
          playwright_on_get_abspath bins' sys' (alistSet [] "chrome" m) "chrome" =
          (.ok (some m), alistSet [] "chrome" m))) :=
  claim_C8_lexically_last_and_cached
    ["/data/lib/browsers/chrome/linux-131.0/chrome-linux/chrome",
     "/data/lib/browsers/chrome/linux-99.0/chrome-linux/chrome"]
    ["/data/lib/browsers/chrome/linux-131.0/chrome-linux/chrome",
     "/data/lib/browsers/chrome/linux-99.0/chrome-linux/chrome"]
    [] none rfl (by decide) (by decide)

/-- Witness for C3 at the claim's two concrete scenarios: environment `TIMEOUT=10` gives
`MEDIA_TIMEOUT = 10`; no overrides give `MEDIA_TIMEOUT = 60`. -/
theorem claim_C3_computed_default_sees_resolved_witness :
    (resolveConfig mediaTimeoutSchema [.defaults, .environment]
        [] [] (envOf (some 10))).map (fun m => m "MEDIA_TIMEOUT") = .ok (some 10)
  ∧ (resolveConfig mediaTimeoutSchema [.defaults, .environment]
        [] [] (envOf none)).map (fun m => m "MEDIA_TIMEOUT") = .ok (some 60) :=
  ⟨(claim_C3_computed_default_sees_resolved (some 10)).1,
   (claim_C3_computed_default_sees_resolved none).1⟩

/-- Witness for C10 (amended) at a lowercase section with one key and no shadowing
earlier section: the characterization says conversion fails, and it does. -/
theorem claim_C10_keyerror_amended_witness :
    exceptOk (convertDict (fun _ => none) (fun _ => none) [("general", [("B", "2")])] []) =
      sectionsConvertible [] [("general", [("B", "2")])]
  ∧ sectionsConvertible [] [("general", [("B", "2")])] = false :=
  ⟨claim_C10_keyerror_amended (fun _ => none) (fun _ => none) [("general", [("B", "2")])],
   rfl⟩
